import Mathlib

/-!
Shallow embedding of the habit tracker core (src/database.py).

The SQLite rows become structures; instants (dates and timestamps) are
modelled as integers on a common time axis, with a period of `p` days
represented by the integer `p`; the cursor/connection state becomes explicit
list passing.  `checked_off` keeps its raw SQLite INTEGER representation
(the code inserts 0 and updates to 1, and tests it by Python truthiness).
Python `//` is floor division, embedded as `Int.fdiv`.
-/

namespace HabitTracker

/-- A row of the `habits` table: task, period, start_date, duration
(the autoincrement `id` column, unused by the core logic, is omitted). -/
structure Habit where
  task : String
  period : Int
  start_date : Int
  duration : Int
  deriving Repr, DecidableEq

/-- A row of the `deadlines` table: `(id, task, from_date, to_date,
checked_off, completion_date)`.  `checked_off` is the raw SQLite INTEGER
(0 on insertion, 1 after a check-off). -/
structure Interval where
  id : Nat
  task : String
  from_instant : Int
  to_instant : Int
  checked_off : Int
  completion_instant : Option Int
  deriving Repr, DecidableEq

/-- Runtime errors of the Python implementation that the embedding makes
explicit: `NameError` for the undefined `id` reference in `check_off_habit`
when no interval matches, `ZeroDivisionError` for `duration // period` with
`period = 0` in `insert_habit`. -/
inductive PyError where
  | NameError
  | ZeroDivisionError
  deriving Repr, DecidableEq

/-- The interval-generation loop of `insert_habit` (database.py lines
108-117): `habit_intervlas = duration // period + 1` rows, row `interval`
spanning `[start_date + interval*period, start_date + (interval+1)*period]`,
inserted with `checked_off = 0` and NULL completion date.  The autoincrement
deadline ids are modelled by the position within the habit's schedule. -/
def generate_intervals (task : String) (start_date period duration : Int) :
    List Interval :=
  (List.range (duration.fdiv period + 1).toNat).map fun interval =>
    { id := interval
      task := task
      from_instant := start_date + (interval : Int) * period
      to_instant := start_date + ((interval : Int) + 1) * period
      checked_off := 0
      completion_instant := none }

/-- `Database.insert_habit` (database.py lines 73-120): inserts the habit row
and then the generated deadline rows.  There is no validation of `period` or
`duration`; the only failure the code can produce is Python's
`ZeroDivisionError` from `duration // period` when `period = 0`. -/
def insert_habit (task : String) (period duration start_date : Int) :
    Except PyError (Habit × List Interval) :=
  if period = 0 then Except.error PyError.ZeroDivisionError
  else
    Except.ok
      ({ task := task, period := period, start_date := start_date,
         duration := duration },
       generate_intervals task start_date period duration)

/-- `Database.list_habits` (database.py lines 122-136): `if habit_period:`
is Python truthiness, so both `None` and `0` take the unfiltered branch;
any other period value filters `WHERE period = ?`. -/
def list_habits (habits : List Habit) (habit_period : Option Int) :
    List Habit :=
  match habit_period with
  | none => habits
  | some p => if p ≠ 0 then habits.filter (fun h => h.period == p) else habits

/-- The matching test of the `check_off_habit` loop (database.py line 179):
`from_date <= current_time <= to_date`, inclusive on both bounds. -/
def interval_matches (current_time : Int) (data : Interval) : Bool :=
  decide (data.from_instant ≤ current_time) &&
    decide (current_time ≤ data.to_instant)

/-- `Database.check_off_habit` (database.py lines 160-189): scan the task's
deadline rows in stored order, take the `id` of the first row whose bounds
contain `current_time` and `break`; then `UPDATE deadlines SET
checked_off = 1, completion_date = ? WHERE id = ?`.  When no row matches,
the local variable `id` was never assigned and line 186 raises `NameError`
before any update happens. -/
def check_off_habit (db_data : List Interval) (current_time : Int) :
    Except PyError (List Interval) :=
  match db_data.find? (interval_matches current_time) with
  | none => Except.error PyError.NameError
  | some hit =>
      Except.ok (db_data.map fun data =>
        if data.id = hit.id then
          { data with checked_off := 1, completion_instant := some current_time }
        else data)

/-- Python truthiness of the `checked_off` column (`if data[4]:`). -/
def isCompleted (data : Interval) : Bool := data.checked_off != 0

/-- One iteration of the `get_streak` loop (database.py lines 203-208),
acting on the state `(max_streak, running_streak)`. -/
def streak_step (acc : Nat × Nat) (data : Interval) : Nat × Nat :=
  if isCompleted data then
    (if acc.1 < acc.2 + 1 then acc.2 + 1 else acc.1, acc.2 + 1)
  else
    (acc.1, 0)

/-- `Database.get_streak` (database.py lines 191-212): fold the streak loop
over the task's deadline rows starting from `max_streak = 0`,
`running_streak = 0` and return the final `max_streak`. -/
def get_streak (db_data : List Interval) : Nat :=
  (db_data.foldl streak_step (0, 0)).1

/-- The list comprehension of `get_success_rate` (database.py lines 224-237):
the effective window length defaults to 30 when `duration` is falsy, and a
row is kept when its `to_date` or its `from_date` lies in
`[now - duration, now]`. -/
def filtered_data (db_data : List Interval) (duration now : Int) :
    List Interval :=
  let d := if duration ≠ 0 then duration else 30
  let from_date := now - d
  db_data.filter fun data =>
    (decide (from_date ≤ data.to_instant) && decide (data.to_instant ≤ now)) ||
    (decide (from_date ≤ data.from_instant) && decide (data.from_instant ≤ now))

/-- `sum(data[4] for data in filtered_data)` (database.py line 239): the sum
of the raw `checked_off` column over a row list. -/
def check_off_sum (db_data : List Interval) : Int :=
  (db_data.map fun data => data.checked_off).sum

/-- `Database.get_success_rate` (database.py lines 214-246): divide the
check-off sum of the filtered rows by their count; the `ZeroDivisionError`
handler turns an empty filtered list into `0.0`. -/
def get_success_rate (db_data : List Interval) (duration now : Int) : Rat :=
  if (filtered_data db_data duration now).length = 0 then 0
  else
    (check_off_sum (filtered_data db_data duration now) : Rat) /
      ((filtered_data db_data duration now).length : Rat)

/-- Success-rate computation exactly as claim C4 words it for an arbitrary
window length: the window is always `[now - window_days, now]`, with no
fallback for a zero window.  Written from the claim's words, to be compared
with `get_success_rate`, the code's version. -/
def success_rate_as_claimed (db_data : List Interval) (window_days now : Int) :
    Rat :=
  let fd := db_data.filter fun data =>
    (decide (now - window_days ≤ data.to_instant) &&
      decide (data.to_instant ≤ now)) ||
    (decide (now - window_days ≤ data.from_instant) &&
      decide (data.from_instant ≤ now))
  if fd.length = 0 then 0 else (check_off_sum fd : Rat) / (fd.length : Rat)

/-- Length of the completed prefix of a row list: the number of leading
rows with a truthy `checked_off`. -/
def prefixRun (l : List Interval) : Nat := (l.takeWhile isCompleted).length

/-- Length of the longest contiguous run of completed rows, by primitive
recursion: the best run either starts at the head or lies further right. -/
def maxRun : List Interval → Nat
  | [] => 0
  | d :: t => max (prefixRun (d :: t)) (maxRun t)

/-- Longest completed run visible to the streak loop when a running streak
of `r` is already open at the left end of the remaining list. -/
def maxRunFrom : Nat → List Interval → Nat
  | _, [] => 0
  | r, d :: t =>
      if isCompleted d then max (r + 1) (maxRunFrom (r + 1) t)
      else maxRunFrom 0 t

lemma generate_intervals_length (task : String)
    (start_date period duration : Int) :
    (generate_intervals task start_date period duration).length =
      (duration.fdiv period + 1).toNat := by
  simp [generate_intervals]

lemma generate_intervals_get (task : String) (start_date period duration : Int)
    (i : Nat)
    (hi : i < (generate_intervals task start_date period duration).length) :
    (generate_intervals task start_date period duration).get ⟨i, hi⟩ =
      { id := i
        task := task
        from_instant := start_date + (i : Int) * period
        to_instant := start_date + ((i : Int) + 1) * period
        checked_off := 0
        completion_instant := none } := by
  simp [generate_intervals, List.get_eq_getElem]

/-- C1: for every start_date, period > 0 and duration > 0, habit creation
generates exactly `duration // period + 1` intervals; interval `i` spans
`[start_date + i*period, start_date + (i+1)*period]` with `checked_off = 0`
(false) and no completion instant; consecutive intervals share their
boundary instant (contiguity); and the intervals are strictly ordered by
`from_instant` (chronological order). -/
theorem insert_habit_schedule_spec (task : String)
    (start_date period duration : Int) (hrow : Habit) (l : List Interval)
    (hl : insert_habit task period duration start_date =
      Except.ok (hrow, l))
    (hp : 0 < period) (hd : 0 < duration) :
    l.length = (duration.fdiv period).toNat + 1 ∧
    (∀ i (hi : i < l.length),
        (l.get ⟨i, hi⟩).from_instant = start_date + (i : Int) * period ∧
        (l.get ⟨i, hi⟩).to_instant = start_date + ((i : Int) + 1) * period ∧
        (l.get ⟨i, hi⟩).checked_off = 0 ∧
        (l.get ⟨i, hi⟩).completion_instant = none) ∧
    (∀ i (hi : i < l.length) (hi1 : i + 1 < l.length),
        (l.get ⟨i, hi⟩).to_instant = (l.get ⟨i + 1, hi1⟩).from_instant) ∧
    (∀ i j (hi : i < l.length) (hj : j < l.length), i < j →
        (l.get ⟨i, hi⟩).from_instant < (l.get ⟨j, hj⟩).from_instant) := by
  have hper : ¬(period = 0) := by omega
  unfold insert_habit at hl
  rw [if_neg hper] at hl
  injection hl with hpair
  have hl2 : l = generate_intervals task start_date period duration :=
    (congrArg Prod.snd hpair).symm
  subst hl2
  refine ⟨?_, ?_, ?_, ?_⟩
  · rw [generate_intervals_length]
    have h0 : 0 ≤ duration.fdiv period :=
      Int.fdiv_nonneg (le_of_lt hd) (le_of_lt hp)
    omega
  · intro i hi
    rw [generate_intervals_get]
    exact ⟨rfl, rfl, rfl, rfl⟩
  · intro i hi hi1
    rw [generate_intervals_get, generate_intervals_get]
    push_cast
    ring
  · intro i j hi hj hij
    rw [generate_intervals_get, generate_intervals_get]
    have hc : (i : Int) < (j : Int) := by exact_mod_cast hij
    exact add_lt_add_left (mul_lt_mul_of_pos_right hc hp) start_date

/-- witness for C1 at the spec's scenario `start 0, period 7, duration 30`:
the generated schedule has `30 // 7 + 1 = 5` intervals. -/
theorem insert_habit_schedule_spec_witness :
    (generate_intervals "run" 0 7 30).length =
      ((30 : Int).fdiv 7).toNat + 1 :=
  (insert_habit_schedule_spec "run" 0 7 30
    { task := "run", period := 7, start_date := 0, duration := 30 }
    (generate_intervals "run" 0 7 30) rfl (by decide) (by decide)).1

lemma find?_eq_some_split {p : Interval → Bool} {l : List Interval}
    {d : Interval} (h : l.find? p = some d) :
    p d = true ∧ ∃ l1 l2, l = l1 ++ d :: l2 ∧ ∀ e ∈ l1, p e = false := by
  induction l with
  | nil => simp at h
  | cons a t ih =>
    by_cases hpa : p a = true
    · rw [List.find?_cons_of_pos _ hpa] at h
      obtain rfl : a = d := by injection h
      exact ⟨hpa, [], t, rfl, by simp⟩
    · rw [List.find?_cons_of_neg _ hpa] at h
      obtain ⟨hpd, l1, l2, rfl, hl1⟩ := ih h
      refine ⟨hpd, a :: l1, l2, rfl, ?_⟩
      intro e he
      rcases List.mem_cons.mp he with rfl | he2
      · simpa using hpa
      · exact hl1 e he2

lemma map_eq_self_of_unchanged {f : Interval → Interval} :
    ∀ l : List Interval, (∀ e ∈ l, f e = e) → l.map f = l := by
  intro l h
  induction l with
  | nil => rfl
  | cons a t ih =>
    rw [List.map_cons, h a (List.mem_cons_self a t),
      ih fun e he => h e (List.mem_cons_of_mem a he)]

/-- C2: when some stored interval of the task contains `current_time`
(bounds inclusive) and the stored ids are distinct (they are autoincrement
primary keys), `check_off_habit` splits the stored sequence around the first
interval, in scan order, that contains `current_time` — no interval before
it matches, so a timestamp on a shared boundary resolves to the earlier
interval — and succeeds by setting exactly that interval's `checked_off`
to 1 and its `completion_instant` to `current_time`, returning every other
interval unchanged.  The scan order is the stored order, which for a
generated schedule is chronological (see `insert_habit_schedule_spec`). -/
theorem check_off_first_match (db_data : List Interval) (current_time : Int)
    (hids : (db_data.map Interval.id).Nodup)
    (hex : ∃ d ∈ db_data, interval_matches current_time d = true) :
    ∃ l1 d l2,
      db_data = l1 ++ d :: l2 ∧
      d.from_instant ≤ current_time ∧ current_time ≤ d.to_instant ∧
      (∀ e ∈ l1,
        ¬(e.from_instant ≤ current_time ∧ current_time ≤ e.to_instant)) ∧
      check_off_habit db_data current_time =
        Except.ok
          (l1 ++
            { d with checked_off := 1,
                     completion_instant := some current_time } :: l2) := by
  have hsome : (db_data.find? (interval_matches current_time)).isSome := by
    rw [List.find?_isSome]
    exact hex
  obtain ⟨d, hfind⟩ := Option.isSome_iff_exists.mp hsome
  obtain ⟨hpd, l1, l2, hsplit, hl1⟩ := find?_eq_some_split hfind
  subst hsplit
  have hbounds : d.from_instant ≤ current_time ∧ current_time ≤ d.to_instant := by
    simpa [interval_matches] using hpd
  rw [List.map_append, List.map_cons, List.nodup_append] at hids
  have hl1id : ∀ e ∈ l1, e.id ≠ d.id := by
    intro e he heq
    exact hids.2.2 (List.mem_map_of_mem Interval.id he)
      (heq ▸ List.mem_cons_self d.id (l2.map Interval.id))
  have hl2id : ∀ e ∈ l2, e.id ≠ d.id := by
    intro e he heq
    exact (List.nodup_cons.mp hids.2.1).1 (heq ▸ List.mem_map_of_mem Interval.id he)
  refine ⟨l1, d, l2, rfl, hbounds.1, hbounds.2, ?_, ?_⟩
  · intro e he hcon
    have : interval_matches current_time e = true := by
      simp [interval_matches, hcon.1, hcon.2]
    rw [hl1 e he] at this
    exact Bool.false_ne_true this
  · unfold check_off_habit
    rw [hfind]
    refine congrArg Except.ok ?_
    rw [List.map_append, List.map_cons]
    congr 1
    · exact map_eq_self_of_unchanged l1 fun e he => if_neg (hl1id e he)
    · congr 1
      · exact if_pos rfl
      · exact map_eq_self_of_unchanged l2 fun e he => if_neg (hl2id e he)

/-- witness for C2: checking off the `period 7, duration 30` schedule at the
shared boundary instant 7 succeeds, and the selected interval is an interval
containing 7 that no earlier interval precedes. -/
theorem check_off_first_match_witness :
    ∃ l1 d l2,
      generate_intervals "run" 0 7 30 = l1 ++ d :: l2 ∧
      d.from_instant ≤ 7 ∧ (7 : Int) ≤ d.to_instant ∧
      (∀ e ∈ l1, ¬(e.from_instant ≤ 7 ∧ (7 : Int) ≤ e.to_instant)) ∧
      check_off_habit (generate_intervals "run" 0 7 30) 7 =
        Except.ok
          (l1 ++
            { d with checked_off := 1, completion_instant := some 7 } :: l2) :=
  check_off_first_match (generate_intervals "run" 0 7 30) 7
    (by decide) (by decide)

/-- C3 (code bug): when no stored interval contains the check-off timestamp
— here the 5-interval schedule `[0,35]` probed at 100, and a task with no
intervals at all — `check_off_habit` fails with Python's `NameError` (the
loop never assigns `id`, and line 186 references it), not with the typed
`NoMatchingInterval` failure the spec requires.  The exception propagates
before the UPDATE statement runs, so the stored intervals are unchanged. -/
theorem check_off_no_match_is_undefined_reference :
    check_off_habit (generate_intervals "run" 0 7 30) 100 =
        Except.error PyError.NameError ∧
    check_off_habit [] 5 = Except.error PyError.NameError :=
  ⟨rfl, rfl⟩

/-- C8 (code bug): `insert_habit` performs no validation of `period` or
`duration`.  With `period = -7` (and with `duration = -30`) it succeeds,
inserting the habit row with an empty schedule; with `period = 0` it raises
`ZeroDivisionError` at `duration // period`.  In no case is an
`InvalidConfiguration` rejection produced. -/
theorem insert_habit_no_validation :
    insert_habit "read" (-7) 365 0 =
      Except.ok
        ({ task := "read", period := -7, start_date := 0, duration := 365 },
         []) ∧
    insert_habit "read" 0 365 0 = Except.error PyError.ZeroDivisionError ∧
    insert_habit "read" 7 (-30) 0 =
      Except.ok
        ({ task := "read", period := 7, start_date := 0, duration := -30 },
         []) :=
  ⟨rfl, rfl, rfl⟩

/-- C9: `list_habits` treats both `None` and `0` as "no filter" (Python
truthiness of `if habit_period:`) and returns every habit row unfiltered;
consequently no filter argument makes it return exactly the period-0 habits
of the two-habit store below — the value 0 does not select them, and any
non-zero value filters on that non-zero period. -/
theorem list_habits_falsy_filter_unfiltered :
    (∀ habits : List Habit, list_habits habits none = habits) ∧
    (∀ habits : List Habit, list_habits habits (some 0) = habits) ∧
    (∀ f : Option Int,
      decide
        (list_habits
            [{ task := "a", period := 0, start_date := 0, duration := 1 },
             { task := "b", period := 1, start_date := 0, duration := 1 }] f =
          [{ task := "a", period := 0, start_date := 0, duration := 1 }]) =
        false) := by
  refine ⟨fun habits => rfl, fun habits => rfl, ?_⟩
  intro f
  rw [decide_eq_false_iff_not]
  match f with
  | none => decide
  | some p =>
    by_cases hp0 : p = 0
    · subst hp0; decide
    · by_cases hp1 : p = 1
      · subst hp1; decide
      · have ha : ((0 : Int) == p) = false :=
          beq_eq_false_iff_ne.mpr (Ne.symm hp0)
        have hb : ((1 : Int) == p) = false :=
          beq_eq_false_iff_ne.mpr fun h => hp1 h.symm
        intro h
        simp [list_habits, hp0, List.filter, ha, hb] at h

/-- C10: a task with zero stored rows — in particular a task that was never
created, for which the `WHERE task = ?` query returns nothing — gets
`get_streak = 0` and `get_success_rate = 0.0` for every window and reference
time.  Both functions are total: no error is raised and nothing
distinguishes an unknown task from an existing task with an empty
schedule (no `NotFound`). -/
theorem empty_schedule_analytics (duration now : Int) :
    get_streak [] = 0 ∧ get_success_rate [] duration now = 0 := by
  exact ⟨rfl, by simp [get_success_rate, filtered_data]⟩

/-- Sample completed row used by concrete witnesses. -/
def doneRow (i : Nat) : Interval :=
  { id := i, task := "sample", from_instant := 7 * (i : Int),
    to_instant := 7 * (i : Int) + 7, checked_off := 1,
    completion_instant := some (7 * (i : Int) + 1) }

/-- Sample incomplete row used by concrete witnesses. -/
def missedRow (i : Nat) : Interval :=
  { id := i, task := "sample", from_instant := 7 * (i : Int),
    to_instant := 7 * (i : Int) + 7, checked_off := 0,
    completion_instant := none }

lemma streak_step_completed {d : Interval} (hd : isCompleted d = true)
    (m r : Nat) : streak_step (m, r) d = (max m (r + 1), r + 1) := by
  unfold streak_step
  rw [if_pos hd]
  rcases Nat.lt_or_ge m (r + 1) with h | h
  · rw [if_pos h, max_eq_right (Nat.le_of_lt h)]
  · rw [if_neg (Nat.not_lt.mpr h), max_eq_left h]

lemma streak_step_not_completed {d : Interval} (hd : isCompleted d = false)
    (acc : Nat × Nat) : streak_step acc d = (acc.1, 0) := by
  unfold streak_step
  rw [hd]
  rfl

lemma foldl_streak_fst (l : List Interval) :
    ∀ m r : Nat, (l.foldl streak_step (m, r)).1 = max m (maxRunFrom r l) := by
  induction l with
  | nil => intro m r; simp [maxRunFrom]
  | cons d t ih =>
    intro m r
    by_cases hd : isCompleted d = true
    · rw [List.foldl_cons, streak_step_completed hd m r, ih,
        show maxRunFrom r (d :: t) = max (r + 1) (maxRunFrom (r + 1) t) from by
          simp [maxRunFrom, hd],
        max_assoc]
    · have hd2 : isCompleted d = false := by simpa using hd
      rw [List.foldl_cons, streak_step_not_completed hd2, ih,
        show maxRunFrom r (d :: t) = maxRunFrom 0 t from by
          simp [maxRunFrom, hd2]]

lemma foldl_streak_all_completed (l : List Interval) :
    ∀ m r : Nat, (∀ d ∈ l, isCompleted d = true) → r ≤ m →
      l.foldl streak_step (m, r) = (max m (r + l.length), r + l.length) := by
  induction l with
  | nil => intro m r _ hrm; simp [max_eq_left hrm]
  | cons d t ih =>
    intro m r hall hrm
    have hd : isCompleted d = true := hall d (List.mem_cons_self d t)
    rw [List.foldl_cons, streak_step_completed hd m r,
      ih (max m (r + 1)) (r + 1)
        (fun e he => hall e (List.mem_cons_of_mem d he))
        (Nat.le_max_right m (r + 1)),
      max_assoc, max_eq_right (Nat.le_add_right (r + 1) t.length)]
    have h4 : r + 1 + t.length = r + (d :: t).length := by
      simp only [List.length_cons]
      omega
    rw [h4]

lemma prefixRun_cons (d : Interval) (t : List Interval) :
    prefixRun (d :: t) = if isCompleted d then prefixRun t + 1 else 0 := by
  by_cases hd : isCompleted d = true
  · simp [prefixRun, List.takeWhile_cons_of_pos hd, hd]
  · have hd2 : isCompleted d = false := by simpa using hd
    simp [prefixRun, List.takeWhile_cons_of_neg hd, hd2]

lemma prefixRun_le_maxRun : ∀ l : List Interval, prefixRun l ≤ maxRun l
  | [] => Nat.le_refl 0
  | d :: t => by
    show prefixRun (d :: t) ≤ max (prefixRun (d :: t)) (maxRun t)
    exact Nat.le_max_left _ _

lemma max_absorb_inner {a b c : Nat} (h : b ≤ a) :
    max a (max b c) = max a c := by
  rw [← max_assoc, max_eq_left h]

lemma max_absorb_outer {a b c : Nat} (h : a ≤ b) :
    max a (max b c) = max b c := by
  rw [← max_assoc, max_eq_right h]

lemma maxRunFrom_eq (l : List Interval) :
    ∀ r : Nat,
      maxRunFrom r l =
        max (if prefixRun l = 0 then 0 else r + prefixRun l) (maxRun l) := by
  induction l with
  | nil => intro r; simp [maxRunFrom, prefixRun, maxRun]
  | cons d t ih =>
    intro r
    have hcons : maxRun (d :: t) = max (prefixRun (d :: t)) (maxRun t) := rfl
    by_cases hd : isCompleted d = true
    · rw [show maxRunFrom r (d :: t) = max (r + 1) (maxRunFrom (r + 1) t) from by
        simp [maxRunFrom, hd],
        ih (r + 1), hcons, prefixRun_cons, if_pos hd]
      have hne : prefixRun t + 1 ≠ 0 := Nat.succ_ne_zero _
      rw [if_neg hne]
      by_cases hpt : prefixRun t = 0
      · simp [hpt]
        try omega
      · simp [hpt]
        try omega
    · have hd2 : isCompleted d = false := by simpa using hd
      rw [show maxRunFrom r (d :: t) = maxRunFrom 0 t from by
          simp [maxRunFrom, hd2],
        ih 0, hcons, prefixRun_cons, if_neg hd, if_pos rfl, Nat.zero_max]
      have hptm : prefixRun t ≤ maxRun t := prefixRun_le_maxRun t
      by_cases hpt : prefixRun t = 0
      · simp [hpt]
        try omega
      · simp [hpt]
        try omega

lemma maxRunFrom_zero (l : List Interval) : maxRunFrom 0 l = maxRun l := by
  rw [maxRunFrom_eq]
  by_cases hp : prefixRun l = 0
  · rw [if_pos hp, Nat.zero_max]
  · rw [if_neg hp, Nat.zero_add, max_eq_right (prefixRun_le_maxRun l)]

lemma get_streak_eq_maxRun (l : List Interval) : get_streak l = maxRun l := by
  unfold get_streak
  rw [foldl_streak_fst l 0 0, Nat.zero_max, maxRunFrom_zero]

lemma length_le_prefixRun_append :
    ∀ l2 l3 : List Interval, (∀ d ∈ l2, isCompleted d = true) →
      l2.length ≤ prefixRun (l2 ++ l3)
  | [], _, _ => Nat.zero_le _
  | d :: t, l3, hall => by
    have hd : isCompleted d = true := hall d (List.mem_cons_self d t)
    rw [List.cons_append, prefixRun_cons, if_pos hd, List.length_cons]
    exact Nat.succ_le_succ
      (length_le_prefixRun_append t l3
        fun e he => hall e (List.mem_cons_of_mem d he))

lemma maxRun_bound :
    ∀ l1 l2 l3 : List Interval, (∀ d ∈ l2, isCompleted d = true) →
      l2.length ≤ maxRun (l1 ++ l2 ++ l3)
  | [], l2, l3, h =>
    le_trans (length_le_prefixRun_append l2 l3 h) (prefixRun_le_maxRun _)
  | a :: t1, l2, l3, h => by
    have hrec := maxRun_bound t1 l2 l3 h
    have hsplit : (a :: t1) ++ l2 ++ l3 = a :: (t1 ++ l2 ++ l3) := by
      simp [List.cons_append]
    rw [hsplit]
    exact le_trans hrec
      (le_trans (Nat.le_max_right (prefixRun (a :: (t1 ++ l2 ++ l3))) _)
        (le_of_eq rfl))

lemma maxRun_attained :
    ∀ l : List Interval,
      ∃ l1 l2 l3, l = l1 ++ l2 ++ l3 ∧ (∀ d ∈ l2, isCompleted d = true) ∧
        l2.length = maxRun l
  | [] => ⟨[], [], [], rfl, by simp, rfl⟩
  | d :: t => by
    rcases Nat.le_total (maxRun t) (prefixRun (d :: t)) with h | h
    · refine ⟨[], (d :: t).takeWhile isCompleted,
        (d :: t).dropWhile isCompleted, ?_, ?_, ?_⟩
      · rw [List.nil_append, List.takeWhile_append_dropWhile]
      · intro e he
        exact List.mem_takeWhile_imp he
      · show prefixRun (d :: t) = maxRun (d :: t)
        show prefixRun (d :: t) = max (prefixRun (d :: t)) (maxRun t)
        exact (max_eq_left h).symm
    · obtain ⟨l1, l2, l3, heq, hall, hlen⟩ := maxRun_attained t
      refine ⟨d :: l1, l2, l3, ?_, hall, ?_⟩
      · rw [heq]
        rfl
      · rw [hlen]
        show maxRun t = max (prefixRun (d :: t)) (maxRun t)
        exact (max_eq_right h).symm

/-- C5: `get_streak` returns the length of the longest run of consecutive
completed intervals in the stored (chronological) order: some contiguous
all-completed segment attains the returned value, every contiguous
all-completed segment is bounded by it, an all-incomplete schedule yields 0
and an all-complete schedule yields the interval count.  (The `[T,T,F,T,T]`
scenario is evaluated in the witness.) -/
theorem get_streak_longest_run (l : List Interval) :
    (∃ l1 l2 l3, l = l1 ++ l2 ++ l3 ∧ (∀ d ∈ l2, d.checked_off ≠ 0) ∧
      l2.length = get_streak l) ∧
    (∀ l1 l2 l3, l = l1 ++ l2 ++ l3 → (∀ d ∈ l2, d.checked_off ≠ 0) →
      l2.length ≤ get_streak l) ∧
    ((∀ d ∈ l, d.checked_off = 0) → get_streak l = 0) ∧
    ((∀ d ∈ l, d.checked_off ≠ 0) → get_streak l = l.length) := by
  refine ⟨?_, ?_, ?_, ?_⟩
  · obtain ⟨l1, l2, l3, heq, hall, hlen⟩ := maxRun_attained l
    rw [get_streak_eq_maxRun]
    exact ⟨l1, l2, l3, heq,
      fun d hd => by simpa [isCompleted] using hall d hd, hlen⟩
  · intro l1 l2 l3 heq hall
    subst heq
    rw [get_streak_eq_maxRun]
    exact maxRun_bound l1 l2 l3
      fun d hd => by simpa [isCompleted] using hall d hd
  · intro h0
    rw [get_streak_eq_maxRun]
    obtain ⟨l1, l2, l3, heq, hall, hlen⟩ := maxRun_attained l
    rw [← hlen]
    cases l2 with
    | nil => rfl
    | cons a t =>
      exfalso
      have ha : isCompleted a = true := hall a (List.mem_cons_self a t)
      have hmem : a ∈ l := by
        rw [heq]
        exact List.mem_append_left _
          (List.mem_append_right _ (List.mem_cons_self a t))
      simp [isCompleted, h0 a hmem] at ha
  · intro hall
    have hallc : ∀ d ∈ l, isCompleted d = true :=
      fun d hd => by simpa [isCompleted] using hall d hd
    unfold get_streak
    rw [foldl_streak_all_completed l 0 0 hallc (Nat.le_refl 0)]
    simp

/-- witness for C5: the `[T,T,F,T,T]` pattern has streak 2, and the
final two-interval completed segment realises the bound conjunct. -/
theorem get_streak_longest_run_witness :
    get_streak [doneRow 0, doneRow 1, missedRow 2, doneRow 3, doneRow 4] =
        2 ∧
    [doneRow 3, doneRow 4].length ≤
      get_streak [doneRow 0, doneRow 1, missedRow 2, doneRow 3, doneRow 4] :=
  ⟨by decide,
   (get_streak_longest_run
      [doneRow 0, doneRow 1, missedRow 2, doneRow 3, doneRow 4]).2.1
     [doneRow 0, doneRow 1, missedRow 2] [doneRow 3, doneRow 4] []
     (by decide) (by decide)⟩

/-- C6: appending a completed interval to a fully-completed schedule raises
the streak by exactly 1, and appending an incomplete interval never
decreases the returned maximum (the running count resets instead). -/
theorem streak_append_monotonic :
    (∀ (l : List Interval) (x : Interval),
      (∀ d ∈ l, d.checked_off ≠ 0) → x.checked_off ≠ 0 →
      get_streak (l ++ [x]) = get_streak l + 1) ∧
    (∀ (l : List Interval) (x : Interval), x.checked_off = 0 →
      get_streak l ≤ get_streak (l ++ [x])) := by
  constructor
  · intro l x hl hx
    have hall : ∀ d ∈ l ++ [x], isCompleted d = true := by
      intro d hd
      rcases List.mem_append.mp hd with h | h
      · simpa [isCompleted] using hl d h
      · obtain rfl := List.mem_singleton.mp h
        simpa [isCompleted] using hx
    have halll : ∀ d ∈ l, isCompleted d = true := fun d hd =>
      hall d (List.mem_append_left _ hd)
    unfold get_streak
    rw [foldl_streak_all_completed (l ++ [x]) 0 0 hall (Nat.le_refl 0),
      foldl_streak_all_completed l 0 0 halll (Nat.le_refl 0)]
    simp [List.length_append]
  · intro l x hx
    have hx2 : isCompleted x = false := by simp [isCompleted, hx]
    unfold get_streak
    rw [List.foldl_append, List.foldl_cons, List.foldl_nil,
      streak_step_not_completed hx2]

/-- witness for C6: a two-interval fully-completed schedule goes from
streak 2 to streak 3 when a completed interval is appended, and appending
a missed interval keeps the streak at least 2. -/
theorem streak_append_monotonic_witness :
    get_streak ([doneRow 0, doneRow 1] ++ [doneRow 2]) =
        get_streak [doneRow 0, doneRow 1] + 1 ∧
    get_streak [doneRow 0, doneRow 1] ≤
        get_streak ([doneRow 0, doneRow 1] ++ [missedRow 2]) :=
  ⟨streak_append_monotonic.1 [doneRow 0, doneRow 1] (doneRow 2)
      (by decide) (by decide),
   streak_append_monotonic.2 [doneRow 0, doneRow 1] (missedRow 2)
      (by decide)⟩

/-- Sample checked-off row lying 10-20 days in the past, used by concrete
window witnesses and the C4 counterexample. -/
def staleRow : Interval :=
  { id := 0, task := "sample", from_instant := -20, to_instant := -10,
    checked_off := 1, completion_instant := some (-15) }

lemma mem_filtered_data {db_data : List Interval} {w now : Int}
    (hw : w ≠ 0) (d : Interval) :
    d ∈ filtered_data db_data w now ↔
      d ∈ db_data ∧
        ((now - w ≤ d.to_instant ∧ d.to_instant ≤ now) ∨
         (now - w ≤ d.from_instant ∧ d.from_instant ≤ now)) := by
  simp [filtered_data, hw, List.mem_filter]

/-- C4 counterexample: the claim quantifies over every window length, but
with `window_days = 0` the code's `int(duration) if duration else 30`
replaces the window by the 30-day default: a fully checked-off interval
ending 10 days before `now` is then included and the code returns 1.0,
while the claim's `[now - 0, now]` window contains neither endpoint and
prescribes 0.0. -/
theorem success_rate_zero_window_counterexample :
    get_success_rate [staleRow] 0 0 = 1 ∧
    success_rate_as_claimed [staleRow] 0 0 = 0 ∧
    decide
        (get_success_rate [staleRow] 0 0 =
          success_rate_as_claimed [staleRow] 0 0) =
      false := by
  have h1 : get_success_rate [staleRow] 0 0 = 1 := by
    norm_num [get_success_rate, filtered_data, check_off_sum, staleRow]
  have h2 : success_rate_as_claimed [staleRow] 0 0 = 0 := by
    norm_num [success_rate_as_claimed, check_off_sum, staleRow]
  refine ⟨h1, h2, ?_⟩
  rw [decide_eq_false_iff_not, h1, h2]
  norm_num

/-- C4 (amended: for every NONZERO window length; a falsy `window_days = 0`
falls back to the default 30-day window): an interval is included in the
success-rate computation exactly when its `to_instant` or its `from_instant`
falls in `[now - window_days, now]` (union of two inclusive range checks),
and the returned value is the check-off sum of the included intervals
divided by their count, with 0.0 when no interval qualifies. -/
theorem success_rate_window_spec (db_data : List Interval) (w now : Int)
    (hw : w ≠ 0) :
    (∀ d, d ∈ filtered_data db_data w now ↔
        d ∈ db_data ∧
          ((now - w ≤ d.to_instant ∧ d.to_instant ≤ now) ∨
           (now - w ≤ d.from_instant ∧ d.from_instant ≤ now))) ∧
    (filtered_data db_data w now = [] →
      get_success_rate db_data w now = 0) ∧
    (filtered_data db_data w now ≠ [] →
      get_success_rate db_data w now =
        (check_off_sum (filtered_data db_data w now) : Rat) /
          ((filtered_data db_data w now).length : Rat)) := by
  refine ⟨fun d => mem_filtered_data hw d, ?_, ?_⟩
  · intro h
    unfold get_success_rate
    rw [h]
    rfl
  · intro h
    unfold get_success_rate
    rw [if_neg fun hlen => h (List.length_eq_zero.mp hlen)]

/-- witness for C4 at window 30, reference time 0, over `[staleRow]`:
the filter is nonempty, so the rate is the sum/count quotient. -/
theorem success_rate_window_spec_witness :
    get_success_rate [staleRow] 30 0 =
      (check_off_sum (filtered_data [staleRow] 30 0) : Rat) /
        ((filtered_data [staleRow] 30 0).length : Rat) :=
  (success_rate_window_spec [staleRow] 30 0 (by decide)).2.2 (by decide)

lemma check_off_sum_bounds :
    ∀ m : List Interval, (∀ d ∈ m, d.checked_off = 0 ∨ d.checked_off = 1) →
      0 ≤ check_off_sum m ∧ check_off_sum m ≤ (m.length : Int)
  | [], _ => by simp [check_off_sum]
  | a :: t, h => by
    have ha := h a (List.mem_cons_self a t)
    have ht := check_off_sum_bounds t fun e he => h e (List.mem_cons_of_mem a he)
    have hsum : check_off_sum (a :: t) = a.checked_off + check_off_sum t := by
      simp [check_off_sum]
    rw [hsum, List.length_cons]
    push_cast
    omega

/-- C7: when every stored `checked_off` flag is 0 or 1 (the only values the
code ever writes), the success rate lies in `[0, 1]` for every window
length and reference time, and it is exactly 0 whenever no interval
overlaps the trailing window (empty filtered set). -/
theorem success_rate_bounds (db_data : List Interval) (w now : Int)
    (h01 : ∀ d ∈ db_data, d.checked_off = 0 ∨ d.checked_off = 1) :
    0 ≤ get_success_rate db_data w now ∧
    get_success_rate db_data w now ≤ 1 ∧
    (filtered_data db_data w now = [] →
      get_success_rate db_data w now = 0) := by
  have hsub : ∀ d ∈ filtered_data db_data w now,
      d.checked_off = 0 ∨ d.checked_off = 1 := by
    intro d hd
    have hd2 : d ∈ db_data := by
      have : filtered_data db_data w now =
          List.filter _ db_data := rfl
      exact List.mem_of_mem_filter (this ▸ hd)
    exact h01 d hd2
  obtain ⟨hs0, hs1⟩ := check_off_sum_bounds _ hsub
  unfold get_success_rate
  by_cases hlen : (filtered_data db_data w now).length = 0
  · rw [if_pos hlen]
    exact ⟨le_refl 0, by norm_num, fun _ => rfl⟩
  · rw [if_neg hlen]
    have hpos : (0 : Rat) < ((filtered_data db_data w now).length : Rat) := by
      exact_mod_cast Nat.pos_of_ne_zero hlen
    refine ⟨div_nonneg (by exact_mod_cast hs0) (le_of_lt hpos), ?_, ?_⟩
    · rw [div_le_one hpos]
      exact_mod_cast hs1
    · intro hnil
      rw [hnil] at hlen
      simp at hlen

/-- witness for C7 over `[staleRow]` (flag 1), window 30, reference 0. -/
theorem success_rate_bounds_witness :
    0 ≤ get_success_rate [staleRow] 30 0 ∧
    get_success_rate [staleRow] 30 0 ≤ 1 :=
  ⟨(success_rate_bounds [staleRow] 30 0 (by decide)).1,
   (success_rate_bounds [staleRow] 30 0 (by decide)).2.1⟩

end HabitTracker
